import Mathlib

/-!
# Verification of the vanish move/restore engine

A shallow embedding of the core of the `vanish` repository (a "trash can"
abstraction for command-line file deletion) together with proofs about it.

Modelling conventions, used throughout:

* Go strings are `List Char`; Go byte slices (file contents) are `List Nat`.
* `time.Time` values are integers counting seconds; `time.Duration`
  arithmetic (`days * 24 * time.Hour`) becomes `days * 86400`, and
  `t1.Before(t2)` becomes `t1 < t2`.  Go compares times at nanosecond
  precision; one second is the granularity every claim under study uses.
* The flat filesystem seen by single-file operations is a function
  `Path → Option FileData`; a present file carries its content and its
  permission (mode) bits.
* Fallible Go functions returning `(T, error)` become `Except (List Char) T`
  or `Option`-valued functions; environment nondeterminism (whether a given
  OS call succeeds) is an explicit boolean parameter.
-/

namespace Vanish

/-- Paths and strings, as in the Go source, are plain strings; we use
character lists so that every predicate below is decidable. -/
abbrev Path := List Char

/-- A regular file: its byte content and its permission bits
(`os.FileMode` restricted to the permission bits that `Chmod` sets). -/
structure FileData where
  content : List Nat
  mode : Nat
deriving DecidableEq, Repr

/-- The flat filesystem state used by the single-file primitives. -/
def FS := Path → Option FileData

/-- Point update of a filesystem. -/
def fsUpdate (fs : FS) (p : Path) (v : Option FileData) : FS :=
  fun q => if q = p then v else fs q

/-- `types.DeletedItem` / `models.DeletedItem`: one ledger entry
(id, original path, deletion time, cache path, directory flag,
descendant count, size). -/
structure DeletedItem where
  id : List Char
  originalPath : List Char
  deleteDate : Int
  cachePath : List Char
  isDirectory : Bool
  fileCount : Nat
  size : Int
deriving DecidableEq, Repr

/-- The `Index` ledger.  `items` is the ordered entry list; the
`version`/`created`/`updated` stamps follow `models.Index` (the `types`
package itself is not in the sources; its shape is corroborated by
`models.Index` and by the persisted-state layout of the design notes). -/
structure Index where
  items : List DeletedItem
  version : List Char
  created : Int
  updated : Int
deriving DecidableEq, Repr

/-! ## String helpers (Go `strings` package) -/

/-- `strings.HasPrefix pre s` (argument order: the candidate prefix first). -/
def hasPrefixB : List Char → List Char → Bool
  | [], _ => true
  | _ :: _, [] => false
  | p :: ps, c :: cs => p == c && hasPrefixB ps cs

/-- `strings.Contains s sub`: `sub` occurs as a contiguous substring of `s`. -/
def hasSubstr : List Char → List Char → Bool
  | [], sub => sub.isEmpty
  | s@(_ :: t), sub => hasPrefixB sub s || hasSubstr t sub

/-- `strings.ToLower`, on the ASCII range the source exercises. -/
def toLowerStr (s : List Char) : List Char := s.map Char.toLower

theorem hasPrefixB_iff (pre s : List Char) :
    hasPrefixB pre s = true ↔ ∃ t, s = pre ++ t := by
  induction pre generalizing s with
  | nil => simp [hasPrefixB]
  | cons p ps ih =>
    cases s with
    | nil => simp [hasPrefixB]
    | cons c cs =>
      simp only [hasPrefixB, Bool.and_eq_true, beq_iff_eq, ih]
      constructor
      · rintro ⟨rfl, t, rfl⟩; exact ⟨t, rfl⟩
      · rintro ⟨t, h⟩
        cases h
        exact ⟨rfl, t, rfl⟩

theorem hasSubstr_iff (s sub : List Char) :
    hasSubstr s sub = true ↔ ∃ l r, s = l ++ sub ++ r := by
  induction s with
  | nil =>
    simp only [hasSubstr, List.isEmpty_iff]
    constructor
    · rintro rfl; exact ⟨[], [], rfl⟩
    · rintro ⟨l, r, h⟩
      rcases List.append_eq_nil.mp (List.append_eq_nil.mp h.symm).1 with ⟨_, h2⟩
      exact h2
  | cons c t ih =>
    simp only [hasSubstr, Bool.or_eq_true, hasPrefixB_iff, ih]
    constructor
    · rintro (⟨r, h⟩ | ⟨l, r, h⟩)
      · exact ⟨[], r, by simpa using h⟩
      · exact ⟨c :: l, r, by simp [h]⟩
    · rintro ⟨l, r, h⟩
      cases l with
      | nil => exact Or.inl ⟨r, by simpa using h⟩
      | cons x xs =>
        simp only [List.cons_append, List.cons.injEq] at h
        exact Or.inr ⟨xs, r, by simp [h.2]⟩

/-! ## Safety classifier (`filesystem.IsProtectedPath`)

The Go source iterates over the protected-path list and returns `true` on
the first entry `protected` with `strings.HasPrefix(absPath, protectedAbs)`.
`filepath.Abs` on an already-absolute, already-clean path is the identity,
which is how the inputs below are to be read. -/

/-- `filesystem.IsProtectedPath`. -/
def isProtectedPath (path : Path) (protectedPaths : List Path) : Bool :=
  protectedPaths.any (fun p => hasPrefixB p path)

/-- The classifier the design document describes ("prefix match on path
components"): `q` equals `p` or lies strictly inside directory `p`.
Modelled from the spec for comparison with `isProtectedPath`. -/
def componentNestedB (p q : Path) : Bool :=
  q == p || hasPrefixB (p ++ ['/']) q

/-! ## Restore candidate selection (`helpers.CheckRestoreItems`)

The source loops over patterns (outer) and index entries (inner), appending
every entry whose lower-cased original path contains the lower-cased
pattern. -/

/-- Whether one index entry matches one restore pattern. -/
def restoreMatch (pattern : List Char) (item : DeletedItem) : Bool :=
  hasSubstr (toLowerStr item.originalPath) (toLowerStr pattern)

/-- `helpers.CheckRestoreItems`, the double loop building `matchingItems`. -/
def checkRestoreItems : List (List Char) → List DeletedItem → List DeletedItem
  | [], _ => []
  | p :: ps, items =>
    items.filter (fun it => restoreMatch p it) ++ checkRestoreItems ps items

/-! ## Expiry: purge and post-delete cleanup

`helpers.PurgeOldFiles` computes `cutoff := now - days*24h`, walks the
index, physically deletes (`os.Remove`/`os.RemoveAll`) every item whose
`DeleteDate` is strictly `Before` the cutoff, counts it, keeps every other
item, and rewrites the index.  `tui.cleanupOldFiles` is the same loop with
the configured retention days and without the count. -/

/-- The expiry test both loops apply to one entry:
`item.DeleteDate.Before(cutoff)` with `cutoff = now - days*24h`. -/
def isExpired (days now : Int) (t : Int) : Bool :=
  decide (t < now - days * 86400)

/-- The purge loop over the index, threading the filesystem: an expired
item's cache path is removed from disk and the purge counter incremented;
everything else is kept for the rewritten index. -/
def purgeGo (days now : Int) : List DeletedItem → FS → List DeletedItem × Nat × FS
  | [], fs => ([], 0, fs)
  | it :: rest, fs =>
    if isExpired days now it.deleteDate then
      let r := purgeGo days now rest (fsUpdate fs it.cachePath none)
      (r.1, r.2.1 + 1, r.2.2)
    else
      let r := purgeGo days now rest fs
      (it :: r.1, r.2.1, r.2.2)

/-- `helpers.PurgeOldFiles` on a loaded index: the remaining items (the
rewritten index), the reported `PurgedCount`, and the filesystem after the
physical deletions. -/
def purgeOldFiles (days now : Int) (items : List DeletedItem) (fs : FS) :
    List DeletedItem × Nat × FS :=
  purgeGo days now items fs

/-- `tui.cleanupOldFiles`: the identical walk driven by the configured
`config.Cache.Days`, dropping the count. -/
def cleanupOldFiles (cfgDays now : Int) (items : List DeletedItem) (fs : FS) :
    List DeletedItem × FS :=
  let r := purgeGo cfgDays now items fs
  (r.1, r.2.2)

/-! ## Index store: load and save -/

/-- The outcome of `os.ReadFile` + `json.Unmarshal` on the ledger file,
the environment input of `LoadIndex`: the file may be absent, reading may
fail with an I/O error, or the read data decodes (`Except.ok`) or fails to
decode (`Except.error`). -/
inductive ReadOutcome (α : Type) where
  | absent
  | ioErr (e : List Char)
  | ok (decoded : Except (List Char) α)

/-- `helpers.LoadIndex`: on an absent file it returns
`types.Index{Items: []types.DeletedItem{}}` — every other field of the
struct is zero-valued (in particular the version stamp is the empty
string); a read or decode error is propagated. -/
def helpersLoadIndex (r : ReadOutcome Index) : Except (List Char) Index :=
  match r with
  | .absent => .ok { items := [], version := [], created := 0, updated := 0 }
  | .ioErr e => .error e
  | .ok (.error e) => .error e
  | .ok (.ok idx) => .ok idx

/-- `filesystem.LoadIndex`: on an absent file it returns an empty index
stamped `Version: "1.0"` and `Created`/`Updated` set to the current time;
a read or decode error is propagated; a decoded index with a missing
version or zero creation time is normalized. -/
def filesystemLoadIndex (now : Int) (r : ReadOutcome Index) :
    Except (List Char) Index :=
  match r with
  | .absent =>
    .ok { items := [], version := "1.0".data, created := now, updated := now }
  | .ioErr e => .error e
  | .ok (.error e) => .error e
  | .ok (.ok idx) =>
    let idx := if idx.version = [] then { idx with version := "1.0".data } else idx
    let idx := if idx.created = 0 then { idx with created := now } else idx
    .ok idx

/-- The filesystem side effects a save routine issues, in order. -/
inductive FsOp where
  | mkdirAll (p : Path)
  | writeFile (p : Path) (data : List Nat)
  | renameFile (src dst : Path)
deriving DecidableEq, Repr

/-- `helpers.SaveIndex`: marshal the index, then a single
`os.WriteFile(indexPath, data, 0644)` — no temporary file, no rename.
(`saveIndex` of the monolithic main is identical.) -/
def helpersSaveIndexOps (indexPath : Path) (data : List Nat) : List FsOp :=
  [FsOp.writeFile indexPath data]

/-- `filesystem.SaveIndex`: stamp `Updated`, `os.MkdirAll` the parent
directory, then again a single direct `os.WriteFile` of the ledger path. -/
def filesystemSaveIndexOps (parentDir indexPath : Path) (data : List Nat) :
    List FsOp :=
  [FsOp.mkdirAll parentDir, FsOp.writeFile indexPath data]

/-- The hardened save shape the design document requires ("write-temp-then-
atomic-rename").  Modelled from the spec: the ops write the full data to
some temporary path distinct from the ledger and then rename it over the
ledger. -/
def usesTempThenRename (ops : List FsOp) (target : Path) (data : List Nat) :
    Prop :=
  ∃ tmp, tmp ≠ target ∧ FsOp.writeFile tmp data ∈ ops ∧
    FsOp.renameFile tmp target ∈ ops

/-- File contents on disk, for the crash semantics of a direct write:
`os.WriteFile` first truncates the target, then writes; a crash after `k`
bytes leaves `data.take k` there. -/
def writeFilePartial (fs : Path → Option (List Nat)) (p : Path)
    (data : List Nat) (k : Nat) : Path → Option (List Nat) :=
  fun q => if q = p then some (data.take k) else fs q

/-! ## Relocation primitive, single files (`helpers.MoveFile`)

`helpers.MoveFile(src, dst)` performs, in order: `os.Open(src)`,
`os.Create(dst)`, `io.Copy`, `os.Remove(src)`.  There is no call to
`os.Rename` and no `Chmod`: the destination keeps whatever mode
`os.Create` gives it.  `os.Create` truncates an existing destination
(keeping its mode) and otherwise creates it with permission `0666 &^ umask`. -/

/-- The mode `os.Create` gives a freshly created file under a given umask
(the Go literal `0666` masked by the process umask). -/
def createMode (umask : Nat) : Nat :=
  0o666 &&& (0o777 ^^^ (umask &&& 0o777))

/-- The mode the destination of `helpers.MoveFile` ends up with: an
existing destination keeps its mode through truncation, a fresh one gets
`createMode`. -/
def moveDstMode (umask : Nat) (fs : FS) (dst : Path) : Nat :=
  match fs dst with
  | some g => g.mode
  | none => createMode umask

/-- The successive filesystem states of `helpers.MoveFile src dst`:
initial, after `os.Create dst` (truncated empty destination), after
`io.Copy` (content copied), after `os.Remove src`.  `none` when opening
`src` fails because the file is absent. -/
def moveFileStates (umask : Nat) (src dst : Path) (fs : FS) :
    Option (List FS) :=
  match fs src with
  | none => none
  | some f =>
    let m := moveDstMode umask fs dst
    let fs1 := fsUpdate fs dst (some ⟨[], m⟩)
    let fs2 := fsUpdate fs1 dst (some ⟨f.content, m⟩)
    let fs3 := fsUpdate fs2 src none
    some [fs, fs1, fs2, fs3]

/-- `helpers.MoveFile` as a state transformer: the final state of
`moveFileStates`. -/
def moveFile (umask : Nat) (src dst : Path) (fs : FS) : Option FS :=
  match fs src with
  | none => none
  | some f =>
    let m := moveDstMode umask fs dst
    some (fsUpdate (fsUpdate (fsUpdate fs dst (some ⟨[], m⟩))
      dst (some ⟨f.content, m⟩)) src none)

theorem moveFile_eq_last (umask : Nat) (src dst : Path) (fs : FS) :
    moveFile umask src dst fs =
      (moveFileStates umask src dst fs).bind List.getLast? := by
  unfold moveFile moveFileStates
  cases fs src <;> simp [List.getLast?]

/-! ## Relocation primitive, directory trees (`helpers.MoveDirectory`)

`MoveDirectory(src, dst)` first attempts `os.Rename(src, dst)` and stops
there on success; only on rename failure (cross-filesystem) does it fall
back to `CopyDirectory(src, dst)` followed by `os.RemoveAll(src)`.
Directory trees are modelled structurally; the relocation is observed at
the two root locations involved. -/

/-- A filesystem subtree: a regular file, or a directory with its mode and
named children. -/
inductive Entry where
  | file (f : FileData)
  | dir (mode : Nat) (children : List (List Char × Entry))

mutual

/-- `helpers.CopyDirectory src dst`: `os.MkdirAll(dst, srcInfo.Mode())`
then per child either a recursive `CopyDirectory` or a `CopyFile`.
`CopyFile` copies the content and `Chmod`s the destination to the source
mode, so the built tree reproduces every mode and content of the source. -/
def copyEntry : Entry → Entry
  | .file f => .file ⟨f.content, f.mode⟩
  | .dir m cs => .dir m (copyChildren cs)

/-- The loop of `helpers.CopyDirectory` over the entries of one directory. -/
def copyChildren : List (List Char × Entry) → List (List Char × Entry)
  | [] => []
  | (n, e) :: rest => (n, copyEntry e) :: copyChildren rest

end

/-- The two locations a directory move touches. -/
structure TwoLoc where
  src : Option Entry
  dst : Option Entry

/-- The successive states of `helpers.MoveDirectory`.  `renameOk` is the
environment's answer to the `os.Rename` attempt (it fails across
filesystems): on success the relocation is the single atomic rename step;
on failure the copy runs to completion (content now at both roots) and
only then is the source removed. -/
def moveDirectoryStates (renameOk : Bool) (s : TwoLoc) : Option (List TwoLoc) :=
  match s.src with
  | none => none
  | some e =>
    if renameOk then
      some [s, ⟨none, some e⟩]
    else
      some [s, ⟨some e, some (copyEntry e)⟩, ⟨none, some (copyEntry e)⟩]

/-- A state holding content at both the source and the destination root. -/
def bothPresent (s : TwoLoc) : Bool :=
  s.src.isSome && s.dst.isSome

/-- A flat-filesystem state holding content at both paths of a file move. -/
def bothPresentFS (fs : FS) (src dst : Path) : Bool :=
  (fs src).isSome && (fs dst).isSome

/-! ## Cache engine: move to cache, restore, index removal -/

/-- The `Items` list after `helpers.RemoveFromIndex itemID`: the loop
keeps exactly the items whose `ID` differs from `itemID`. -/
def removeFromIndexItems (itemID : List Char) (items : List DeletedItem) :
    List DeletedItem :=
  items.filter (fun it => it.id ≠ itemID)

/-- `tui.moveFileToCache` for a regular file, after config and cache-dir
setup: stat the file, generate the id and cache path (supplied here by the
caller, as they are derived from the wall clock), move the content with
`helpers.MoveFile`, build the `DeletedItem`, and append it to the index
(`helpers.AddToIndex`).  `none` models the stat/move failing on an absent
source.  The result is the new filesystem, the new index items, and the
recorded item. -/
def moveFileToCache (umask : Nat) (id cachePath : List Char) (now : Int)
    (filename : Path) (fs : FS) (items : List DeletedItem) :
    Option (FS × List DeletedItem × DeletedItem) :=
  match fs filename with
  | none => none
  | some f =>
    match moveFile umask filename cachePath fs with
    | none => none
    | some fs' =>
      let item : DeletedItem :=
        { id := id, originalPath := filename, deleteDate := now,
          cachePath := cachePath, isDirectory := false, fileCount := 0,
          size := Int.ofNat f.content.length }
      some (fs', items ++ [item], item)

/-- `types.RestoreMsg`: the message a restore command reports back, a
(possibly zero-valued) item and an optional error. -/
structure RestoreMsg where
  item : Option DeletedItem
  err : Option (List Char)
deriving DecidableEq, Repr

/-- `tui.restoreFromCache` for a regular file.  Environment booleans stand
for the OS calls whose outcome the code branches on: `removeOk` is
`helpers.RemoveFromIndex` succeeding (it loads and rewrites the ledger),
and when it fails with logging enabled, `logMkdirOk`/`logOpenOk`/
`logWriteOk` are the creation of the log directory, the opening of the log
file, and the write of the error line.  The Go command returns a `tea.Msg`;
`none` models the bare `return nil` branches (no message at all reaches the
update loop).  The result bundles the filesystem, the index items, and the
returned message. -/
def restoreFromCache (umask : Nat) (item : DeletedItem) (fs : FS)
    (items : List DeletedItem)
    (loggingEnabled removeOk logMkdirOk logOpenOk logWriteOk : Bool) :
    Option (FS × List DeletedItem × RestoreMsg) :=
  -- "cached file not found" when the cache path does not stat
  if (fs item.cachePath).isNone then
    some (fs, items, ⟨none, some "cached file not found".data⟩)
  -- "destination already exists" when the original path stats
  else if (fs item.originalPath).isSome then
    some (fs, items, ⟨none, some "destination already exists".data⟩)
  else
    match moveFile umask item.cachePath item.originalPath fs with
    | none => some (fs, items, ⟨none, some "move failed".data⟩)
    | some fs' =>
      if removeOk then
        some (fs', removeFromIndexItems item.id items, ⟨some item, none⟩)
      else if loggingEnabled then
        if !logMkdirOk then none
        else if logOpenOk && !logWriteOk then none
        else some (fs', items, ⟨some item, none⟩)
      else
        some (fs', items, ⟨some item, none⟩)

/-! ## The TUI batch loop (`tui.Model.Update`)

Only the message cases the claims are about are embedded: the reaction to
a completed (or failed) per-item move (`types.FileMoveMsg`) and to a
completed (or failed) per-item restore (`types.RestoreMsg`).  Progress-bar
percentages are presentation and are not modelled. -/

/-- `types.FileInfo`, as much of it as the delete loop consults. -/
structure FileInfo where
  path : Path
  isDirectory : Bool
  fileCount : Nat
  present : Bool  -- the `Exists` field
deriving DecidableEq, Repr

/-- `helpers.FindNextValidFile`: the first index `≥ startIndex` whose file
exists; `none` models the `-1` sentinel. -/
def findNextValidFile (fileInfos : List FileInfo) (startIndex : Nat) :
    Option Nat :=
  (List.range fileInfos.length).find?
    (fun i => startIndex ≤ i && ((fileInfos.get? i).map FileInfo.present).getD false)

/-- The slice of `tui.Model` the two message handlers read and write. -/
structure TuiModel where
  state : List Char
  errorMsg : List Char
  currentIndex : Nat
  fileInfos : List FileInfo
  processedItems : List DeletedItem
  processedFiles : Nat
  restoreItems : List DeletedItem
deriving DecidableEq, Repr

/-- The commands the two handlers can hand back to the bubbletea runtime
(the progress-bar `SetPercent` components of each `tea.Batch` dropped). -/
inductive TuiCmd where
  | noCmd
  | processNextItem
  | cleanupCmd
deriving DecidableEq, Repr

/-- `types.FileMoveMsg`. -/
structure FileMoveMsg where
  item : Option DeletedItem
  err : Option (List Char)
deriving DecidableEq, Repr

/-- `tui.Model.Update`, `types.FileMoveMsg` case: any per-item error sets
the error state and stops (no further command); otherwise the item is
recorded (when its ID is non-empty), and the loop either advances to the
next valid file or transitions to the cleanup phase. -/
def updateFileMove (m : TuiModel) (msg : FileMoveMsg) : TuiModel × TuiCmd :=
  match msg.err with
  | some e =>
    ({ m with state := "error".data,
              errorMsg := "Error processing item: ".data ++ e }, .noCmd)
  | none =>
    let m :=
      match msg.item with
      | some it =>
        if it.id ≠ [] then
          { m with processedItems := m.processedItems ++ [it],
                   processedFiles := m.processedFiles + 1 }
        else m
      | none => m
    match findNextValidFile m.fileInfos (m.currentIndex + 1) with
    | some i => ({ m with currentIndex := i }, .processNextItem)
    | none => ({ m with state := "cleanup".data }, .cleanupCmd)

/-- `tui.Model.Update`, `types.RestoreMsg` case: any per-item error sets
the error state and stops; otherwise the item is recorded, the index
advances, and the loop either restores the next queued item or finishes. -/
def updateRestore (m : TuiModel) (msg : RestoreMsg) : TuiModel × TuiCmd :=
  match msg.err with
  | some e =>
    ({ m with state := "error".data,
              errorMsg := "Error restoring item: ".data ++ e }, .noCmd)
  | none =>
    let m :=
      match msg.item with
      | some it =>
        if it.id ≠ [] then
          { m with processedItems := m.processedItems ++ [it],
                   processedFiles := m.processedFiles + 1 }
        else m
      | none => m
    let m := { m with currentIndex := m.currentIndex + 1 }
    if m.currentIndex < m.restoreItems.length then
      (m, .processNextItem)
    else
      ({ m with state := "done".data }, .noCmd)

/-! ## List/info queries (`showList`, `ShowInfo`) -/

/-- One insertion step of the deletion-date ordering `showList` requests
from `sort.Slice` (`less i j := Items[i].DeleteDate.After(Items[j].DeleteDate)`). -/
def insertByDateDesc (it : DeletedItem) : List DeletedItem → List DeletedItem
  | [] => [it]
  | x :: xs =>
    if x.deleteDate < it.deleteDate then it :: x :: xs
    else x :: insertByDateDesc it xs

/-- The sort `showList` performs: entries ordered by deletion timestamp,
most recent first. -/
def sortByDateDesc (items : List DeletedItem) : List DeletedItem :=
  items.foldr insertByDateDesc []

/-- The "days left" computation of `showList` and `ShowInfo`:
`expiry := DeleteDate + Days*24h`, then
`int(time.Until(expiry).Hours() / 24)` — the remaining duration truncated
toward zero at whole-day granularity (`Int.tdiv` is T-division, matching
Go's float-to-int conversion). -/
def daysLeft (cfgDays : Int) (now : Int) (it : DeletedItem) : Int :=
  Int.tdiv (it.deleteDate + cfgDays * 86400 - now) 86400

/-- The selection loop of `ShowInfo` (and of `showInfo` in the monolithic
main): matching entries are collected in ledger order, case-insensitive
substring match against the original path; no sorting is applied. -/
def showInfoMatches (pattern : List Char) (items : List DeletedItem) :
    List DeletedItem :=
  items.filter (fun it => restoreMatch pattern it)

/-! ## Results about the safety classifier -/

/-- C4: the claim reads "the safety classifier marks a target protected iff
its absolute path equals or is nested under a protected entry, where
nesting is decided on whole path components, so /home2 is not protected by
a /home rule".  The classifier in fact answers `true` for `/home2` under
the single rule `/home`, although no rule is component-wise equal to or a
component-wise ancestor of `/home2` — the claimed equivalence fails at
this input. -/
theorem claim_C4_counterexample :
    isProtectedPath "/home2".data ["/home".data] = true ∧
    (["/home".data].any (fun p => componentNestedB p "/home2".data)) = false := by
  decide

/-- C4 (amended): the classifier marks a target protected iff some entry
of the protected-path list is a plain string prefix of the target's
absolute path — so `/home2` is protected by a `/home` rule. -/
theorem claim_C4_plain_prefix_protection :
    ∀ (q : Path) (L : List Path),
      isProtectedPath q L = true ↔ ∃ p ∈ L, ∃ t, q = p ++ t := by
  intro q L
  simp [isProtectedPath, List.any_eq_true, hasPrefixB_iff]

/-! ## Results about expiry: purge and cleanup -/

theorem purgeGo_spec (days now : Int) :
    ∀ (items : List DeletedItem) (fs : FS),
      (purgeGo days now items fs).1 =
        items.filter (fun it => !(isExpired days now it.deleteDate)) ∧
      (purgeGo days now items fs).2.1 =
        (items.filter (fun it => isExpired days now it.deleteDate)).length ∧
      ∀ p, (purgeGo days now items fs).2.2 p =
        if p ∈ (items.filter
            (fun it => isExpired days now it.deleteDate)).map DeletedItem.cachePath
        then none else fs p := by
  intro items
  induction items with
  | nil => intro fs; simp [purgeGo]
  | cons it rest ih =>
    intro fs
    by_cases h : isExpired days now it.deleteDate
    · have ihs := ih (fsUpdate fs it.cachePath none)
      have hfilPos : (it :: rest).filter (fun x => isExpired days now x.deleteDate)
          = it :: rest.filter (fun x => isExpired days now x.deleteDate) := by
        simp [List.filter_cons, h]
      have hfilNeg : (it :: rest).filter (fun x => !(isExpired days now x.deleteDate))
          = rest.filter (fun x => !(isExpired days now x.deleteDate)) := by
        simp [List.filter_cons, h]
      refine ⟨?_, ?_, ?_⟩
      · rw [hfilNeg]; simpa [purgeGo, h] using ihs.1
      · rw [hfilPos]; simp [purgeGo, h, ihs.2.1]
      · intro p
        rw [hfilPos, List.map_cons]
        simp only [purgeGo, h, if_true]
        rw [ihs.2.2 p]
        by_cases hmem : p ∈ (rest.filter
            (fun x => isExpired days now x.deleteDate)).map DeletedItem.cachePath
        · simp [hmem, List.mem_cons]
        · by_cases hpc : p = it.cachePath <;>
            simp [hmem, hpc, fsUpdate, List.mem_cons]
    · have ihs := ih fs
      have hfilPos : (it :: rest).filter (fun x => isExpired days now x.deleteDate)
          = rest.filter (fun x => isExpired days now x.deleteDate) := by
        simp [List.filter_cons, h]
      have hfilNeg : (it :: rest).filter (fun x => !(isExpired days now x.deleteDate))
          = it :: rest.filter (fun x => !(isExpired days now x.deleteDate)) := by
        simp [List.filter_cons, h]
      refine ⟨?_, ?_, ?_⟩
      · rw [hfilNeg]; simpa [purgeGo, h] using congrArg (List.cons it) ihs.1
      · rw [hfilPos]; simpa [purgeGo, h] using ihs.2.1
      · intro p
        rw [hfilPos]
        simp only [purgeGo, h, if_neg]
        exact ihs.2.2 p

/-- C5: `purge(days)` and the post-delete cleanup drop from the index, and
physically delete, exactly the entries whose deletion time is strictly
before `now - days*24h`, keep every other entry, and purge reports the
number of dropped entries; at the boundary, a deletion time of
`now - days*24h - 1s` is expired and `now - days*24h + 1s` is not. -/
theorem claim_C5_purge_exact :
    ∀ (days cfgDays now : Int) (items : List DeletedItem) (fs : FS),
      (purgeOldFiles days now items fs).1 =
        items.filter (fun it => !(isExpired days now it.deleteDate)) ∧
      (purgeOldFiles days now items fs).2.1 =
        (items.filter (fun it => isExpired days now it.deleteDate)).length ∧
      (∀ p, (purgeOldFiles days now items fs).2.2 p =
        if p ∈ (items.filter
            (fun it => isExpired days now it.deleteDate)).map DeletedItem.cachePath
        then none else fs p) ∧
      (cleanupOldFiles cfgDays now items fs).1 =
        items.filter (fun it => !(isExpired cfgDays now it.deleteDate)) ∧
      (∀ p, (cleanupOldFiles cfgDays now items fs).2 p =
        if p ∈ (items.filter
            (fun it => isExpired cfgDays now it.deleteDate)).map DeletedItem.cachePath
        then none else fs p) ∧
      isExpired days now (now - days * 86400 - 1) = true ∧
      isExpired days now (now - days * 86400 + 1) = false := by
  intro days cfgDays now items fs
  have h1 := purgeGo_spec days now items fs
  have h2 := purgeGo_spec cfgDays now items fs
  refine ⟨h1.1, h1.2.1, h1.2.2, h2.1, h2.2.2, ?_, ?_⟩
  · simp only [isExpired, decide_eq_true_eq]; omega
  · simp only [isExpired, decide_eq_false_iff_not]; omega

/-! ## Results about restore candidate selection -/

/-- C6: an index entry is selected for restore exactly when the
lower-cased pattern occurs as a substring of the entry's lower-cased
original path; matches of several patterns are concatenated without
deduplication, so an entry occurring once in the index and matching `k`
patterns appears `k` times in the selection. -/
theorem claim_C6_restore_selection :
    ∀ (patterns : List (List Char)) (items : List DeletedItem)
      (e : DeletedItem),
      (e ∈ checkRestoreItems patterns items ↔
        e ∈ items ∧ ∃ p ∈ patterns, ∃ l r,
          toLowerStr e.originalPath = l ++ toLowerStr p ++ r) ∧
      (checkRestoreItems patterns items).count e =
        (patterns.filter (fun p => restoreMatch p e)).length * items.count e := by
  intro patterns items e
  induction patterns with
  | nil => simp [checkRestoreItems]
  | cons p ps ih =>
    constructor
    · simp only [checkRestoreItems, List.mem_append, List.mem_filter,
        restoreMatch, hasSubstr_iff, ih.1, List.mem_cons]
      constructor
      · rintro (⟨he, l, r, h⟩ | ⟨he, q, hq, l, r, h⟩)
        · exact ⟨he, p, Or.inl rfl, l, r, h⟩
        · exact ⟨he, q, Or.inr hq, l, r, h⟩
      · rintro ⟨he, q, (rfl | hq), l, r, h⟩
        · exact Or.inl ⟨he, l, r, h⟩
        · exact Or.inr ⟨he, q, hq, l, r, h⟩
    · simp only [checkRestoreItems, List.count_append, ih.2]
      by_cases hm : restoreMatch p e
      · rw [List.count_filter (by simpa using hm), List.filter_cons_of_pos
          (by simpa using hm)]
        simp only [List.length_cons]
        ring
      · have h0 : (items.filter (fun it => restoreMatch p it)).count e = 0 := by
          refine List.count_eq_zero.mpr (fun hmem => ?_)
          exact hm (by simpa using (List.mem_filter.mp hmem).2)
        rw [h0, List.filter_cons_of_neg (by simpa using hm)]
        omega

/-! ## Results about index load -/

/-- C7: the claim reads "Index load never errors when the backing file is
absent: it returns a fresh empty Index carrying the current version
stamp".  `helpers.LoadIndex` does return a fresh empty index on an absent
file, but with a zero-valued version field, not the current `"1.0"`
stamp. -/
theorem claim_C7_counterexample :
    helpersLoadIndex ReadOutcome.absent =
      Except.ok { items := [], version := [], created := 0, updated := 0 } ∧
    ({ items := [], version := [], created := 0, updated := 0 } : Index).version ≠
      "1.0".data :=
  ⟨rfl, by decide⟩

/-- C7 (amended): index load never errors on an absent backing file — the
`filesystem` variant returns a fresh empty index stamped with version
`"1.0"` and the current time, while the `helpers` variant returns a fresh
empty index whose version field is zero-valued; any other read failure or
decode failure is propagated to the caller by both variants. -/
theorem claim_C7_load_semantics :
    (∀ now : Int, filesystemLoadIndex now ReadOutcome.absent =
      Except.ok { items := [], version := "1.0".data, created := now, updated := now }) ∧
    (helpersLoadIndex ReadOutcome.absent =
      Except.ok { items := [], version := [], created := 0, updated := 0 }) ∧
    (∀ e, helpersLoadIndex (ReadOutcome.ioErr e) = Except.error e) ∧
    (∀ now e, filesystemLoadIndex now (ReadOutcome.ioErr e) = Except.error e) ∧
    (∀ e, helpersLoadIndex (ReadOutcome.ok (Except.error e)) = Except.error e) ∧
    (∀ now e, filesystemLoadIndex now (ReadOutcome.ok (Except.error e)) =
      Except.error e) ∧
    (∀ idx, helpersLoadIndex (ReadOutcome.ok (Except.ok idx)) = Except.ok idx) :=
  ⟨fun _ => rfl, rfl, fun _ => rfl, fun _ _ => rfl, fun _ => rfl,
    fun _ _ => rfl, fun _ => rfl⟩

/-! ## Results about index save -/

/-- C8: the claim reads "Index save writes the serialized index to a
temporary file and atomically renames it over the original ledger file".
The save routine issues a single direct write of the ledger path; no
write-to-temporary followed by a rename over the ledger occurs. -/
theorem claim_C8_counterexample :
    ¬ usesTempThenRename
        (helpersSaveIndexOps "/cache/index.json".data [1, 2])
        "/cache/index.json".data [1, 2] := by
  rintro ⟨tmp, hne, hw, hr⟩
  simp [helpersSaveIndexOps] at hr

/-- C8 (amended): both save variants write the serialized index directly
over the ledger file (the `filesystem` variant only adds a `MkdirAll` of
the parent directory first); neither uses a temporary file plus rename, so
a write that fails right after truncation leaves the ledger empty and the
prior on-disk contents are lost. -/
theorem claim_C8_save_direct_write :
    ∀ (fs : Path → Option (List Nat)) (dir p : Path) (data prior : List Nat),
      fs p = some prior → prior ≠ [] →
      (¬ usesTempThenRename (helpersSaveIndexOps p data) p data) ∧
      (¬ usesTempThenRename (filesystemSaveIndexOps dir p data) p data) ∧
      writeFilePartial fs p data 0 p = some [] ∧
      writeFilePartial fs p data 0 p ≠ some prior := by
  intro fs dir p data prior hread hne
  refine ⟨?_, ?_, ?_, ?_⟩
  · rintro ⟨tmp, htne, hw, hr⟩
    simp [helpersSaveIndexOps] at hr
  · rintro ⟨tmp, htne, hw, hr⟩
    simp [filesystemSaveIndexOps] at hr
  · simp [writeFilePartial]
  · simp only [writeFilePartial, if_pos rfl, List.take_zero]
    intro h
    exact hne (Option.some.inj h).symm

/-- The ledger contents used to witness the save-path result. -/
def c8fs : Path → Option (List Nat) :=
  fun q => if q = "/cache/index.json".data then some [7] else none

/-- C8, witness: the amended statement applied at a one-file ledger. -/
theorem claim_C8_witness :
    c8fs "/cache/index.json".data = some [7] ∧ ([7] : List Nat) ≠ [] ∧
    ((¬ usesTempThenRename
        (helpersSaveIndexOps "/cache/index.json".data [1, 2])
        "/cache/index.json".data [1, 2]) ∧
      (¬ usesTempThenRename
        (filesystemSaveIndexOps "/cache".data "/cache/index.json".data [1, 2])
        "/cache/index.json".data [1, 2]) ∧
      writeFilePartial c8fs "/cache/index.json".data [1, 2] 0
        "/cache/index.json".data = some [] ∧
      writeFilePartial c8fs "/cache/index.json".data [1, 2] 0
        "/cache/index.json".data ≠ some [7]) :=
  ⟨by decide, by decide,
    claim_C8_save_direct_write c8fs "/cache".data "/cache/index.json".data
      [1, 2] [7] (by decide) (by decide)⟩

/-! ## Results about list/info queries -/

theorem insertByDateDesc_perm (it : DeletedItem) (l : List DeletedItem) :
    (insertByDateDesc it l).Perm (it :: l) := by
  induction l with
  | nil => exact List.Perm.refl _
  | cons x xs ih =>
    unfold insertByDateDesc
    by_cases h : x.deleteDate < it.deleteDate
    · simp [h]
    · simp only [if_neg h]
      exact (List.Perm.cons x ih).trans (List.Perm.swap it x xs)

theorem insertByDateDesc_sorted (it : DeletedItem) (l : List DeletedItem)
    (h : l.Pairwise (fun a b => b.deleteDate ≤ a.deleteDate)) :
    (insertByDateDesc it l).Pairwise (fun a b => b.deleteDate ≤ a.deleteDate) := by
  induction l with
  | nil => simp [insertByDateDesc]
  | cons x xs ih =>
    rw [List.pairwise_cons] at h
    obtain ⟨hx, hxs⟩ := h
    unfold insertByDateDesc
    by_cases hc : x.deleteDate < it.deleteDate
    · simp only [if_pos hc]
      rw [List.pairwise_cons]
      refine ⟨?_, List.pairwise_cons.mpr ⟨hx, hxs⟩⟩
      intro y hy
      rcases List.mem_cons.mp hy with rfl | hy2
      · exact le_of_lt hc
      · exact le_trans (hx y hy2) (le_of_lt hc)
    · simp only [if_neg hc]
      rw [List.pairwise_cons]
      refine ⟨?_, ih hxs⟩
      intro y hy
      rcases List.mem_cons.mp ((insertByDateDesc_perm it xs).mem_iff.mp hy)
        with rfl | hy2
      · exact le_of_not_lt hc
      · exact hx y hy2

/-- An entry used in the numeric day-count instances below. -/
def c9item (t : Int) : DeletedItem :=
  { id := "9".data, originalPath := "/x".data, deleteDate := t,
    cachePath := "/c/9".data, isDirectory := false, fileCount := 0, size := 1 }

/-- The older of the two entries of the info-query counterexample. -/
def c9old : DeletedItem :=
  { id := "1".data, originalPath := "/old".data, deleteDate := 100,
    cachePath := "/c/1".data, isDirectory := false, fileCount := 0, size := 1 }

/-- The newer of the two entries of the info-query counterexample. -/
def c9new : DeletedItem :=
  { id := "2".data, originalPath := "/new".data, deleteDate := 200,
    cachePath := "/c/2".data, isDirectory := false, fileCount := 0, size := 1 }

/-- C9: the claim reads "list and info queries sort entries by deletion
timestamp descending".  The info query does not sort: on an index holding
an older entry before a newer one, both matching the pattern, it reports
them in ledger order — the older entry first. -/
theorem claim_C9_counterexample :
    showInfoMatches "/".data [c9old, c9new] = [c9old, c9new] ∧
    c9old.deleteDate < c9new.deleteDate := by
  decide

/-- C9 (amended): the list query sorts entries by deletion timestamp
descending (most recent first); the info query reports matching entries in
ledger order without sorting (its output is a sublist of the index); for
every entry the reported days left is the remaining duration until
`delete_time + retention_days` truncated toward zero at whole days, so
23.9 hours remaining reports 0 days left (and 47.9 hours reports 1, and an
entry one hour past expiry still reports 0). -/
theorem claim_C9_sorting_daysleft :
    (∀ items : List DeletedItem,
      (sortByDateDesc items).Pairwise (fun a b => b.deleteDate ≤ a.deleteDate) ∧
      (sortByDateDesc items).Perm items) ∧
    (∀ (pattern : List Char) (items : List DeletedItem),
      (showInfoMatches pattern items).Sublist items) ∧
    daysLeft 0 0 (c9item 86040) = 0 ∧
    daysLeft 0 0 (c9item 172440) = 1 ∧
    daysLeft 0 0 (c9item (-3600)) = 0 := by
  refine ⟨?_, ?_, by decide, by decide, by decide⟩
  · intro items
    induction items with
    | nil => exact ⟨List.Pairwise.nil, List.Perm.refl _⟩
    | cons x xs ih =>
      refine ⟨insertByDateDesc_sorted x _ ih.1, ?_⟩
      exact (insertByDateDesc_perm x _).trans (ih.2.cons x)
  · intro pattern items
    exact List.filter_sublist items

/-! ## Results about the batch loop -/

/-- The delete-batch model of the C1 input: two existing targets, the
first currently being processed. -/
def c1model : TuiModel :=
  { state := "moving".data, errorMsg := [], currentIndex := 0,
    fileInfos := [⟨"/a".data, false, 0, true⟩, ⟨"/b".data, false, 0, true⟩],
    processedItems := [], processedFiles := 0, restoreItems := [] }

/-- The restore-batch model of the C1 input: two queued restore items, the
first currently being processed. -/
def c1modelR : TuiModel :=
  { state := "restoring".data, errorMsg := [], currentIndex := 0,
    fileInfos := [], processedItems := [], processedFiles := 0,
    restoreItems := [c9old, c9new] }

/-- C1: the claim reads "when processing one target fails, the failure is
recorded and the engine continues with the next target".  On a failing
`FileMoveMsg` (or `RestoreMsg`) the update handler moves to the error
state and returns no continuation command, although a further valid
target (respectively a further queued restore item) remains — the sibling
items are not processed. -/
theorem claim_C1_counterexample :
    (updateFileMove c1model ⟨none, some "io error".data⟩).2 = TuiCmd.noCmd ∧
    (updateFileMove c1model ⟨none, some "io error".data⟩).1.state = "error".data ∧
    findNextValidFile c1model.fileInfos (c1model.currentIndex + 1) = some 1 ∧
    (updateRestore c1modelR ⟨none, some "collision".data⟩).2 = TuiCmd.noCmd ∧
    (updateRestore c1modelR ⟨none, some "collision".data⟩).1.state = "error".data ∧
    c1modelR.currentIndex + 1 < c1modelR.restoreItems.length := by
  decide

/-- C1 (amended): when processing one target of a batch delete or restore
fails, the failure is recorded in the model's error message but the engine
transitions to the error state and issues no further command — the
remaining targets are not processed, so one item's failure aborts its
sibling items; only after a successful item does the engine continue with
the next valid target. -/
theorem claim_C1_error_aborts_batch :
    ∀ (m : TuiModel) (e : List Char) (itm : Option DeletedItem) (i : Nat),
      (updateFileMove m ⟨itm, some e⟩ =
        ({ m with state := "error".data,
                  errorMsg := "Error processing item: ".data ++ e }, TuiCmd.noCmd)) ∧
      (updateRestore m ⟨itm, some e⟩ =
        ({ m with state := "error".data,
                  errorMsg := "Error restoring item: ".data ++ e }, TuiCmd.noCmd)) ∧
      (findNextValidFile m.fileInfos (m.currentIndex + 1) = some i →
        (updateFileMove m ⟨itm, none⟩).2 = TuiCmd.processNextItem) := by
  intro m e itm i
  refine ⟨rfl, rfl, ?_⟩
  intro h
  cases itm with
  | none => simp [updateFileMove, h]
  | some it =>
    by_cases hid : it.id = []
    · simp [updateFileMove, hid, h]
    · simp [updateFileMove, hid, h]

/-- C1, witness: the amended statement applied to the two-target delete
model, whose next valid target after the current one is index 1. -/
theorem claim_C1_witness :
    findNextValidFile c1model.fileInfos (c1model.currentIndex + 1) = some 1 ∧
    (updateFileMove c1model ⟨none, none⟩).2 = TuiCmd.processNextItem :=
  ⟨by decide, (claim_C1_error_aborts_batch c1model [] none 1).2.2 (by decide)⟩

/-! ## Results about restore error reporting -/

/-- The cached entry of the C10 input. -/
def c10item : DeletedItem :=
  { id := "7".data, originalPath := "/a".data, deleteDate := 50,
    cachePath := "/c/x".data, isDirectory := false, fileCount := 0, size := 1 }

/-- The filesystem of the C10 input: the cached content exists, the
original path is free. -/
def c10fs : FS :=
  fun p => if p = "/c/x".data then some ⟨[1], 0o644⟩ else none

/-- C10: the claim reads "if the move back succeeds and the index removal
fails, the restore is still reported as a success".  When logging is
enabled and creating the log directory fails — or the log file opens but
writing the error line fails — the command instead returns no message at
all (`return nil`), so no success is reported — even though the cached
file existed and the destination was free, so the move itself
succeeded. -/
theorem claim_C10_counterexample :
    (c10fs c10item.cachePath).isSome = true ∧
    (c10fs c10item.originalPath).isNone = true ∧
    (restoreFromCache 0 c10item c10fs [c10item] true false false true true).isNone
      = true ∧
    (restoreFromCache 0 c10item c10fs [c10item] true false true true false).isNone
      = true := by
  decide

/-- C10 (amended): when the move back to the original path succeeds but
the index removal fails, the restore is reported as a success — with the
index left unchanged, still containing the item's entry — whenever logging
is disabled, or the error-log directory is created and the log line is
written (or the log file merely fails to open); but if logging is enabled
and creating the log directory fails (or the opened log write fails), no
message is returned at all.  In every case the items list keeps the
entry. -/
theorem claim_C10_restore_success_keeps_entry :
    ∀ (umask : Nat) (item : DeletedItem) (fs : FS) (items : List DeletedItem)
      (f : FileData) (lo lw lm : Bool),
      fs item.cachePath = some f → fs item.originalPath = none →
      ∃ fs', moveFile umask item.cachePath item.originalPath fs = some fs' ∧
        (restoreFromCache umask item fs items false false lm lo lw =
          some (fs', items, ⟨some item, none⟩)) ∧
        (restoreFromCache umask item fs items true false true lo true =
          some (fs', items, ⟨some item, none⟩)) ∧
        (restoreFromCache umask item fs items true false true false lw =
          some (fs', items, ⟨some item, none⟩)) ∧
        (restoreFromCache umask item fs items true false false lo lw = none) ∧
        (restoreFromCache umask item fs items true false true true false = none) := by
  intro umask item fs items f lo lw lm hf ho
  have hmove : moveFile umask item.cachePath item.originalPath fs =
      some (fsUpdate (fsUpdate (fsUpdate fs item.originalPath
        (some ⟨[], moveDstMode umask fs item.originalPath⟩))
        item.originalPath
        (some ⟨f.content, moveDstMode umask fs item.originalPath⟩))
        item.cachePath none) := by
    simp [moveFile, hf]
  refine ⟨_, hmove, ?_, ?_, ?_, ?_, ?_⟩ <;>
    simp [restoreFromCache, hf, ho, hmove]

/-- C10, witness: the amended statement applied to the concrete cached
entry and one-entry index. -/
theorem claim_C10_witness :
    c10fs c10item.cachePath = some ⟨[1], 0o644⟩ ∧
    c10fs c10item.originalPath = none ∧
    (∃ fs', moveFile 0 c10item.cachePath c10item.originalPath c10fs = some fs' ∧
      (restoreFromCache 0 c10item c10fs [c10item] false false true true true =
        some (fs', [c10item], ⟨some c10item, none⟩)) ∧
      (restoreFromCache 0 c10item c10fs [c10item] true false true true true =
        some (fs', [c10item], ⟨some c10item, none⟩)) ∧
      (restoreFromCache 0 c10item c10fs [c10item] true false true false true =
        some (fs', [c10item], ⟨some c10item, none⟩)) ∧
      (restoreFromCache 0 c10item c10fs [c10item] true false false true true =
        none) ∧
      (restoreFromCache 0 c10item c10fs [c10item] true false true true false =
        none)) :=
  ⟨by decide, by decide,
    claim_C10_restore_success_keeps_entry 0 c10item c10fs [c10item]
      ⟨[1], 0o644⟩ true true true (by decide) (by decide)⟩

/-! ## Results about the relocation primitive -/

mutual

theorem copyEntry_eq_self : ∀ e : Entry, copyEntry e = e
  | .file _ => rfl
  | .dir m cs => by rw [copyEntry, copyChildren_eq_self]

theorem copyChildren_eq_self : ∀ cs : List (List Char × Entry), copyChildren cs = cs
  | [] => rfl
  | (n, e) :: rest => by
    rw [copyChildren, copyEntry_eq_self, copyChildren_eq_self]

end

/-- The one-file filesystem of the C3 input. -/
def c3fs : FS :=
  fun p => if p = "/a".data then some ⟨[1], 0o644⟩ else none

/-- C3: the claim reads "the relocation primitive first attempts an atomic
rename ... consequently a move within one filesystem never leaves content
at both the source and the destination at once".  Moving a single file
never attempts a rename: `helpers.MoveFile` always copies and then
removes, and its trace passes through a state where content is present at
both the source and the destination — also within one filesystem. -/
theorem claim_C3_counterexample :
    (moveFileStates 0 "/a".data "/b".data c3fs).isSome = true ∧
    ((moveFileStates 0 "/a".data "/b".data c3fs).getD []).any
        (fun s => bothPresentFS s "/a".data "/b".data) = true := by
  decide

/-- C3 (amended): `MoveDirectory` first attempts an atomic rename and only
on rename failure falls back to a recursive copy preserving mode bits
followed by removal of the source, so a directory move within one
filesystem (where the rename succeeds) never leaves content at both
locations; `MoveFile` however never attempts a rename — it always copies
the content and then removes the source, so even a same-filesystem file
move passes through a state with content at both paths before the source
is removed. -/
theorem claim_C3_relocation :
    ∀ (e : Entry) (s : TwoLoc) (umask : Nat) (src dst : Path) (fs : FS)
      (f : FileData),
      s.src = some e → s.dst = none → fs src = some f → src ≠ dst →
      (moveDirectoryStates true s = some [s, ⟨none, some e⟩] ∧
        ∀ st ∈ [s, (⟨none, some e⟩ : TwoLoc)], bothPresent st = false) ∧
      (moveDirectoryStates false s =
        some [s, ⟨some e, some e⟩, ⟨none, some e⟩]) ∧
      (∃ states, moveFileStates umask src dst fs = some states ∧
        (∃ st ∈ states, bothPresentFS st src dst = true) ∧
        ∃ fsF, states.getLast? = some fsF ∧ fsF src = none ∧
          fsF dst = some ⟨f.content, moveDstMode umask fs dst⟩) := by
  intro e s umask src dst fs f hs hd hf hne
  have hds : dst ≠ src := Ne.symm hne
  refine ⟨⟨?_, ?_⟩, ?_, ?_⟩
  · simp [moveDirectoryStates, hs]
  · intro st hst
    rcases List.mem_cons.mp hst with rfl | hst2
    · simp [bothPresent, hd]
    · rcases List.mem_cons.mp hst2 with rfl | hst3
      · simp [bothPresent]
      · simp at hst3
  · simp [moveDirectoryStates, hs, copyEntry_eq_self]
  · have hstates : moveFileStates umask src dst fs =
        some [fs,
          fsUpdate fs dst (some ⟨[], moveDstMode umask fs dst⟩),
          fsUpdate (fsUpdate fs dst (some ⟨[], moveDstMode umask fs dst⟩))
            dst (some ⟨f.content, moveDstMode umask fs dst⟩),
          fsUpdate (fsUpdate (fsUpdate fs dst
              (some ⟨[], moveDstMode umask fs dst⟩))
            dst (some ⟨f.content, moveDstMode umask fs dst⟩)) src none] := by
      simp [moveFileStates, hf]
    refine ⟨_, hstates, ?_, ?_⟩
    · refine ⟨fsUpdate (fsUpdate fs dst (some ⟨[], moveDstMode umask fs dst⟩))
        dst (some ⟨f.content, moveDstMode umask fs dst⟩), ?_, ?_⟩
      · simp [List.mem_cons]
      · simp [bothPresentFS, fsUpdate, hne, hf]
    · refine ⟨_, rfl, ?_, ?_⟩
      · simp [fsUpdate]
      · simp [fsUpdate, hds]

/-- C3, witness: the amended statement applied to a one-child directory
tree in the two-location model and to the one-file filesystem `c3fs`. -/
theorem claim_C3_witness :
    (TwoLoc.mk (some (Entry.dir 0o755 [("f".data, Entry.file ⟨[1], 0o600⟩)]))
        none).src = some (Entry.dir 0o755 [("f".data, Entry.file ⟨[1], 0o600⟩)]) ∧
    (TwoLoc.mk (some (Entry.dir 0o755 [("f".data, Entry.file ⟨[1], 0o600⟩)]))
        none).dst = none ∧
    c3fs "/a".data = some ⟨[1], 0o644⟩ ∧
    "/a".data ≠ "/b".data ∧
    ((moveDirectoryStates true
        ⟨some (Entry.dir 0o755 [("f".data, Entry.file ⟨[1], 0o600⟩)]), none⟩ =
        some [⟨some (Entry.dir 0o755 [("f".data, Entry.file ⟨[1], 0o600⟩)]), none⟩,
          ⟨none, some (Entry.dir 0o755 [("f".data, Entry.file ⟨[1], 0o600⟩)])⟩] ∧
      ∀ st ∈ [(⟨some (Entry.dir 0o755 [("f".data, Entry.file ⟨[1], 0o600⟩)]),
            none⟩ : TwoLoc),
          (⟨none, some (Entry.dir 0o755 [("f".data, Entry.file ⟨[1], 0o600⟩)])⟩ :
            TwoLoc)], bothPresent st = false) ∧
      (moveDirectoryStates false
        ⟨some (Entry.dir 0o755 [("f".data, Entry.file ⟨[1], 0o600⟩)]), none⟩ =
        some [⟨some (Entry.dir 0o755 [("f".data, Entry.file ⟨[1], 0o600⟩)]), none⟩,
          ⟨some (Entry.dir 0o755 [("f".data, Entry.file ⟨[1], 0o600⟩)]),
            some (Entry.dir 0o755 [("f".data, Entry.file ⟨[1], 0o600⟩)])⟩,
          ⟨none, some (Entry.dir 0o755 [("f".data, Entry.file ⟨[1], 0o600⟩)])⟩]) ∧
      (∃ states, moveFileStates 0 "/a".data "/b".data c3fs = some states ∧
        (∃ st ∈ states, bothPresentFS st "/a".data "/b".data = true) ∧
        ∃ fsF, states.getLast? = some fsF ∧ fsF "/a".data = none ∧
          fsF "/b".data = some ⟨[1], moveDstMode 0 c3fs "/b".data⟩)) :=
  ⟨rfl, rfl, by decide, by decide,
    claim_C3_relocation (Entry.dir 0o755 [("f".data, Entry.file ⟨[1], 0o600⟩)])
      ⟨some (Entry.dir 0o755 [("f".data, Entry.file ⟨[1], 0o600⟩)]), none⟩
      0 "/a".data "/b".data c3fs ⟨[1], 0o644⟩ rfl rfl (by decide) (by decide)⟩

/-! ## Results about the move/restore round trip -/

/-- The round trip of C2: move a file to the cache, then restore the
recorded item, with the index-removal rewrite succeeding
(`removeOk = true`) and logging disabled. -/
def roundTrip (umask : Nat) (id cachePath : List Char) (now : Int)
    (src : Path) (fs : FS) (items : List DeletedItem) :
    Option (FS × List DeletedItem × RestoreMsg) :=
  (moveFileToCache umask id cachePath now src fs items).bind
    (fun r => restoreFromCache umask r.2.2 r.1 r.2.1 false true true true true)

/-- The one-file filesystem of the C2 input: an executable-mode file. -/
def c2fs : FS :=
  fun p => if p = "/a".data then some ⟨[1, 2], 0o755⟩ else none

/-- C2: the claim reads "the restored file's content and its permission
bits equal the original file's".  Round-tripping a mode-`0755` file
through the cache restores its content but hands back mode `0666` (the
`os.Create` default under a zero umask): `helpers.MoveFile` never copies
permissions, so the original permission bits are lost. -/
theorem claim_C2_counterexample :
    c2fs "/a".data = some ⟨[1, 2], 0o755⟩ ∧
    (roundTrip 0 "1".data "/c/x".data 100 "/a".data c2fs []).map
        (fun r => r.2.2.err) = some none ∧
    (roundTrip 0 "1".data "/c/x".data 100 "/a".data c2fs []).bind
        (fun r => r.1 "/a".data) = some ⟨[1, 2], 0o666⟩ ∧
    (0o666 : Nat) ≠ 0o755 := by
  decide

/-- C2 (amended): for every file moved to cache and then restored with no
intervening errors, the restored file's content equals the original's and
the Index afterwards contains no entry with the item's id, but the
restored permission bits are the `os.Create` default for the process
umask, not the original file's mode. -/
theorem claim_C2_roundtrip :
    ∀ (umask : Nat) (id cachePath : List Char) (now : Int) (src : Path)
      (fs : FS) (items : List DeletedItem) (c : List Nat) (m : Nat),
      fs src = some ⟨c, m⟩ → src ≠ cachePath →
      (roundTrip umask id cachePath now src fs items).map
          (fun r => r.2.2.err) = some none ∧
      (roundTrip umask id cachePath now src fs items).bind
          (fun r => r.1 src) = some ⟨c, createMode umask⟩ ∧
      (roundTrip umask id cachePath now src fs items).map
          (fun r => r.2.1.all (fun it => it.id != id)) = some true := by
  intro umask id cachePath now src fs items c m hf hne
  have hcs : cachePath ≠ src := Ne.symm hne
  have hall : ∀ l : List DeletedItem,
      (l.filter (fun it => it.id ≠ id)).all (fun it => it.id != id) = true := by
    intro l
    rw [List.all_eq_true]
    intro it hit
    simpa using (List.mem_filter.mp hit).2
  refine ⟨?_, ?_, ?_⟩ <;>
    simp [roundTrip, moveFileToCache, moveFile, restoreFromCache,
      removeFromIndexItems, fsUpdate, moveDstMode, hf, hcs, hne, hall]

/-- C2, witness: the amended round-trip statement applied to the
mode-`0755` file of `c2fs`. -/
theorem claim_C2_witness :
    c2fs "/a".data = some ⟨[1, 2], 0o755⟩ ∧
    "/a".data ≠ "/c/x".data ∧
    ((roundTrip 0 "1".data "/c/x".data 100 "/a".data c2fs []).map
        (fun r => r.2.2.err) = some none ∧
      (roundTrip 0 "1".data "/c/x".data 100 "/a".data c2fs []).bind
        (fun r => r.1 "/a".data) = some ⟨[1, 2], createMode 0⟩ ∧
      (roundTrip 0 "1".data "/c/x".data 100 "/a".data c2fs []).map
        (fun r => r.2.1.all (fun it => it.id != "1".data)) = some true) :=
  ⟨by decide, by decide,
    claim_C2_roundtrip 0 "1".data "/c/x".data 100 "/a".data c2fs [] [1, 2]
      0o755 (by decide) (by decide)⟩

end Vanish
